import Mathlib

/-!
# Verification of the bluebird mail client core

Shallow embedding of the core of the `bluebird` terminal mail client:

* `src/bluebird/adapter.py` — `MailboxAdapter` (lazily materialized, filterable
  list source over a mailbox) and `MessageAdapter` (message body rows plus an
  attachment map);
* `src/bluebird/views.py` — `ListView` (windowed, scrollable, highlightable
  list viewport);
* `src/bluebird/app.py` — `Application._startActivity` / `_destroyActivity`
  (the screen-stack lifecycle state machine).

Python strings are modelled by Lean `String`, Python `int` by `Int` (list
indices that are known to be non-negative in the modelled paths use `Nat`),
Python exceptions by `Option`/`Except` results, and the mail-parsing
collaborators (declared out of scope by the design document) by record fields
carrying the values their accessors return.
-/

namespace Bluebird

/-! ## Python string primitives used by `adapter.py` -/

/-- Helper for `pySplit`: `acc` is the current (reversed) run of
non-whitespace characters. -/
def pySplitAux : List Char → List Char → List String
  | acc, [] => if acc = [] then [] else [String.mk acc.reverse]
  | acc, c :: t =>
    if c.isWhitespace then
      if acc = [] then pySplitAux [] t
      else String.mk acc.reverse :: pySplitAux [] t
    else pySplitAux (c :: acc) t

/-- Python `str.split()` with no argument: the maximal runs of
non-whitespace characters (no empty fields). -/
def pySplit (s : String) : List String :=
  pySplitAux [] s.data

/-- Helper for `pySplitOn`: split at every separator, keeping empty
segments. -/
def splitOnChar (sep : Char) : List Char → List (List Char)
  | [] => [[]]
  | c :: t =>
    if c = sep then [] :: splitOnChar sep t
    else
      match splitOnChar sep t with
      | h :: r => (c :: h) :: r
      | [] => [[c]]

/-- Python `str.split(sep)` for a one-character separator. -/
def pySplitOn (s : String) (sep : Char) : List String :=
  (splitOnChar sep s.data).map String.mk

/-- Python `str.lower()` (ASCII case folding; the queries and keywords the
adapter compares with it are ASCII). -/
def pyLower (s : String) : String :=
  String.mk (s.data.map Char.toLower)

/-- Python `str.strip()`: drop leading and trailing whitespace. -/
def pyStrip (s : String) : String :=
  String.mk
    (((s.data.dropWhile Char.isWhitespace).reverse.dropWhile
        Char.isWhitespace).reverse)

/-- Python `s.startswith(pre)`. -/
def pyStartsWith (s pre : String) : Bool :=
  pre.data.isPrefixOf s.data

/-- Python `sep.join(parts)`. -/
def pyJoin (sep : String) : List String → String
  | [] => ""
  | a :: rest => rest.foldl (fun acc x => acc ++ sep ++ x) a

/-- Python `s.rjust(w)`. -/
def pyRjust (s : String) (w : Nat) : String :=
  if w ≤ s.length then s
  else String.mk (List.replicate (w - s.length) ' ') ++ s

/-- Python `s.ljust(w)`. -/
def pyLjust (s : String) (w : Nat) : String :=
  if w ≤ s.length then s
  else s ++ String.mk (List.replicate (w - s.length) ' ')

/-- Python `s[a:b]` for `0 ≤ a ≤ b`. -/
def pySlice (s : String) (a b : Nat) : String :=
  String.mk ((s.data.drop a).take (b - a))

/-- Python `s[:b]`. -/
def pyTake (s : String) (b : Nat) : String :=
  String.mk (s.data.take b)

/-- Python `s.index(c, 1)`: index of the first occurrence of character `c` at
position ≥ `start`, or `none` (`ValueError`). -/
def pyIndexFrom (s : String) (c : Char) (start : Nat) : Option Nat :=
  ((s.data.drop start).findIdx? (fun d => d = c)).map (fun i => start + i)

/-- Substring scan over character lists: does `needle` occur as a prefix of
some suffix of `hay`? -/
def containsSub (needle : List Char) : List Char → Bool
  | [] => needle.isPrefixOf []
  | c :: t => needle.isPrefixOf (c :: t) || containsSub needle t

/-- Python `needle in hay` for strings: contiguous-substring test
(`"" in hay` is true). -/
def pyContains (hay needle : String) : Bool :=
  containsSub needle.data hay.data

/-! ## The mail-collection collaborator

The design document (§1, §6) treats the mailbox/MIME parsing as an external
collaborator reached through accessors: header fields `date`, `from`,
`subject`, `to` (`utils.get_header_param`), the multipart flag
(`message.is_multipart()`), the body text (`utils.get_content_body`), the
content type (`utils.get_content_type`) and the attachment list
(`utils.get_attachments`, i.e. `get_payload()[1:]`). A `Message` carries the
values those accessors return. -/

/-- An attachment part, as consumed by `MessageAdapter`
(`m.get_filename(failobj='<unknown>')` and `m.get_content_type()`). -/
structure Attachment where
  filename : Option String
  contentType : String
  deriving Repr, DecidableEq

/-- A mail message at the collaborator boundary. -/
structure Message where
  /-- `utils.get_header_param(m, 'date')` -/
  date : String
  /-- `utils.get_header_param(m, 'from')` -/
  sender : String
  /-- `utils.get_header_param(m, 'subject')` -/
  subject : String
  /-- `utils.get_header_param(m, 'to')` -/
  recipient : String
  /-- `message.is_multipart()` (also `utils.has_attachments`) -/
  multipart : Bool
  /-- `utils.get_content_body(m)` -/
  body : String
  /-- `utils.get_content_type(m)` -/
  contentType : String
  /-- `utils.get_attachments(m)`, i.e. `get_payload()[1:]` -/
  attachments : List Attachment
  deriving Repr, DecidableEq

/-! ## `MailboxAdapter.__headerline` and its helpers -/

/-- `MailboxAdapter.__pretty_date`. `fields[0]` on an empty list and the
tuple accesses `fields[1]`, `fields[2]` raise `IndexError`, which the
surrounding `try` (which only catches `TypeError`) does not stop: `none`
models the escaping exception. The `except TypeError` arm is unreachable for
the `str` inputs `get_header_param` produces. -/
def prettyDate (date : String) : Option String :=
  match pySplit date with
  | [] => none
  | f0 :: rest =>
    let fields := if 2 < f0.length then rest else f0 :: rest
    match fields with
    | a :: b :: c :: _ => some (pyRjust (a ++ " " ++ b ++ " " ++ c) 11)
    | _ => none

/-- The accumulation loop of `MailboxAdapter.__pretty_from`:
`tmp = tmp + elem + ' '` for each word, updating `sender` while
`len(tmp) <= 15` and breaking otherwise. -/
def prettyFromLoop : List String → String → String → String
  | [], _, sender => sender
  | e :: rest, tmp, sender =>
    let tmp' := tmp ++ e ++ " "
    if 15 < tmp'.length then sender else prettyFromLoop rest tmp' tmp'

/-- `MailboxAdapter.__pretty_from`. -/
def prettyFrom (sender0 : String) : String :=
  let sender :=
    if pyStartsWith sender0 "\"" then
      match pyIndexFrom sender0 '"' 1 with
      | some i => pySlice sender0 1 i
      | none => pySlice sender0 1 sender0.length
    else if pyStartsWith sender0 "<" then
      match pyIndexFrom sender0 '>' 1 with
      | some i => pySlice sender0 1 i
      | none => pySlice sender0 1 sender0.length
    else sender0
  let sender := prettyFromLoop (pySplit sender) "" sender
  pyLjust (pyTake sender 15) 15

/-- `MailboxAdapter.__headerline`: format a message's header fields into one
row. `none` models an exception escaping from `__pretty_date`. -/
def headerline (m : Message) (number : Nat) : Option String :=
  (prettyDate m.date).map fun d =>
    pyJoin " "
      [pyRjust (toString (number + 1)) 2,
       (if m.multipart then "a" else " "),
       d,
       prettyFrom m.sender,
       pyStrip m.subject]

/-! ## Dates (`datetime.datetime.strptime` as used by `__filterby_date`) -/

/-- A calendar date, ordered like Python `datetime` values (the adapter only
parses dates, so the time-of-day components are always zero and are omitted). -/
structure Date where
  year : Nat
  month : Nat
  day : Nat
  deriving Repr, DecidableEq

/-- `dt < dt'` on `datetime` values restricted to dates: lexicographic on
(year, month, day). -/
def Date.lt (a b : Date) : Bool :=
  a.year < b.year ∨
    (a.year = b.year ∧
      (a.month < b.month ∨ (a.month = b.month ∧ a.day < b.day)))

/-- Length of a month, Gregorian rules (what `datetime` validates days with). -/
def daysInMonth (year month : Nat) : Nat :=
  if month = 2 then
    if year % 4 = 0 ∧ (year % 100 ≠ 0 ∨ year % 400 = 0) then 29 else 28
  else if month ∈ [4, 6, 9, 11] then 30
  else 31

/-- A digit-only string of length between `lo` and `hi` parsed to its value. -/
def parseDigits (s : String) (lo hi : Nat) : Option Nat :=
  if lo ≤ s.length ∧ s.length ≤ hi ∧ s.data.all Char.isDigit then
    some (s.data.foldl (fun acc c => acc * 10 + (c.toNat - '0'.toNat)) 0)
  else none

/-- `datetime.strptime(s, '%d/%m/%Y')`: 1–2 digit day in 1..31, `/`, 1–2 digit
month in 1..12, `/`, exactly 4 digit year ≥ 1 (`datetime.MINYEAR`), with the
day validated against the month's length; `none` is `ValueError`. -/
def parseDMY (s : String) : Option Date :=
  match pySplitOn s '/' with
  | [ds, ms, ys] => do
    let d ← parseDigits ds 1 2
    let m ← parseDigits ms 1 2
    let y ← parseDigits ys 4 4
    if 1 ≤ d ∧ 1 ≤ m ∧ m ≤ 12 ∧ 1 ≤ y ∧ d ≤ daysInMonth y m then
      some ⟨y, m, d⟩
    else none
  | _ => none

/-- The month abbreviations `%b` recognizes in the C locale (matched
case-insensitively by `strptime`). -/
def monthAbbrevs : List String :=
  ["jan", "feb", "mar", "apr", "may", "jun",
   "jul", "aug", "sep", "oct", "nov", "dec"]

/-- Split a character list into a maximal leading run satisfying `p` and the
rest. -/
def takeRun (p : Char → Bool) : List Char → List Char × List Char
  | [] => ([], [])
  | c :: rest =>
    if p c then
      let (run, rest') := takeRun p rest
      (c :: run, rest')
    else ([], c :: rest)

/-- `datetime.strptime(s, '%d %b %Y')` (used on `date_header[5:16]`): a 1–2
digit day in 1..31, whitespace, a case-insensitive month abbreviation,
whitespace, exactly 4 digits of year, end of string; the day is validated
against the month. `none` is `ValueError` (the scan then skips the message). -/
def parseHeaderDate (s : String) : Option Date := do
  let (dayRun, rest) := takeRun Char.isDigit s.data
  let d ← parseDigits (String.mk dayRun) 1 2
  let (ws1, rest) := takeRun Char.isWhitespace rest
  if ws1 = [] then none
  else
    let (monRun, rest) := takeRun Char.isAlpha rest
    match (monthAbbrevs.indexOf? (pyLower (String.mk monRun))) with
    | none => none
    | some mIdx =>
      let (ws2, rest) := takeRun Char.isWhitespace rest
      if ws2 = [] then none
      else
        let (yRun, rest) := takeRun Char.isDigit rest
        let y ← parseDigits (String.mk yRun) 4 4
        if rest = [] ∧ 1 ≤ d ∧ 1 ≤ y ∧ d ≤ daysInMonth y (mIdx + 1) then
          some ⟨y, mIdx + 1, d⟩
        else none

/-! ## `MailboxAdapter` -/

/-- Python exceptions that the modelled adapter code can raise. -/
inductive PyErr where
  /-- `IndexError` -/
  | indexError
  /-- `TypeError` -/
  | typeError
  /-- `ValueError` -/
  | valueError
  /-- an exception escaping from `__headerline` (`IndexError` raised inside
  `__pretty_date`) -/
  | headerErr
  deriving Repr, DecidableEq

/-- The state of a `MailboxAdapter`: the backing mailbox (`_mailbox`), the
materialized header rows (`_data`) and the optional filtered rows
(`_filtereddata`). -/
structure MailboxAdapter where
  mailbox : List Message
  data : List String
  filtereddata : Option (List String)
  deriving Repr, DecidableEq

/-- Materialize header rows for the messages of `msgs`, numbering from `n`:
the loop bodies of `MailboxAdapter.__init__` and of the fetch in
`__getitem__`. Returns the rows built plus `false` if `__headerline` raised
midway (the rows already appended stay appended). -/
def buildRows : List Message → Nat → List String × Bool
  | [], _ => ([], true)
  | m :: rest, n =>
    match headerline m n with
    | none => ([], false)
    | some s =>
      let (tail, ok) := buildRows rest (n + 1)
      (s :: tail, ok)

/-- `MailboxAdapter.__init__(mailbox)`: materialize the first (up to) 30
header rows. `none` models an exception escaping the constructor. -/
def mkMailboxAdapter (mailbox : List Message) : Option MailboxAdapter :=
  match buildRows (mailbox.take 30) 0 with
  | (rows, true) => some ⟨mailbox, rows, none⟩
  | (_, false) => none

/-- `MailboxAdapter.__len__`: the filtered length when a filter is active,
else the length of the backing mailbox. -/
def MailboxAdapter.len (a : MailboxAdapter) : Nat :=
  match a.filtereddata with
  | none => a.mailbox.length
  | some fd => fd.length

/-- `MailboxAdapter.isfiltered`. -/
def MailboxAdapter.isfiltered (a : MailboxAdapter) : Bool :=
  a.filtereddata.isSome

/-- `MailboxAdapter.unfilter`. -/
def MailboxAdapter.unfilter (a : MailboxAdapter) : MailboxAdapter :=
  { a with filtereddata := none }

/-- `MailboxAdapter.__getitem__` for a non-negative index: returns the row and
the post-call adapter state. Unfiltered, an index beyond `_data` first fetches
one batch of up to 10 more rows from the mailbox, then indexes `_data` again
(`IndexError` if still beyond). A filtered adapter indexes `_filtereddata`
directly and never fetches. -/
def MailboxAdapter.getitem (a : MailboxAdapter) (key : Nat) :
    MailboxAdapter × Except PyErr String :=
  match a.filtereddata with
  | some fd =>
    match fd.get? key with
    | some v => (a, .ok v)
    | none => (a, .error .indexError)
  | none =>
    match a.data.get? key with
    | some v => (a, .ok v)
    | none =>
      let len_ := a.data.length
      let (newRows, ok) := buildRows ((a.mailbox.drop len_).take 10) len_
      let a' := { a with data := a.data ++ newRows }
      if ok then
        match a'.data.get? key with
        | some v => (a', .ok v)
        | none => (a', .error .indexError)
      else (a', .error .headerErr)

/-- `MailboxAdapter.__filterby_header`: headers of the messages whose `param`
header contains `pattern` (case-sensitive `in`); `none` models `__headerline`
raising (the local list is discarded, the adapter state unchanged). -/
def filterbyHeader (param : Message → String) (pattern : String) :
    List Message → Nat → Option (List String)
  | [], _ => some []
  | m :: rest, n =>
    if pyContains (param m) pattern then
      match headerline m n with
      | none => none
      | some s => (filterbyHeader param pattern rest (n + 1)).map (s :: ·)
    else filterbyHeader param pattern rest (n + 1)

/-- `MailboxAdapter.__filter`: the plain scan, matching `pattern` (the raw,
un-lowered query) as a case-sensitive substring of the `from` header, the
`subject` header or the body text. -/
def filterPlain (pattern : String) : List Message → Nat → Option (List String)
  | [], _ => some []
  | m :: rest, n =>
    if pyContains m.sender pattern || pyContains m.subject pattern ||
        pyContains m.body pattern then
      match headerline m n with
      | none => none
      | some s => (filterPlain pattern rest (n + 1)).map (s :: ·)
    else filterPlain pattern rest (n + 1)

/-- The scan loop of `MailboxAdapter.__filterby_date`, after the bounds have
been arranged so that `hi` is `dt1` (the later bound) and `lo` is `dt2` (the
earlier): skip messages whose `date_header[5:16]` does not parse, skip (
`continue`) messages dated after `hi`, stop (`break`) at the first message
dated before `lo`, and collect the header rows of the rest. -/
def dateScan (hi lo : Date) : List Message → Nat → Option (List String)
  | [], _ => some []
  | m :: rest, n =>
    match parseHeaderDate (pySlice m.date 5 16) with
    | none => dateScan hi lo rest (n + 1)
    | some dt =>
      if Date.lt hi dt then dateScan hi lo rest (n + 1)
      else if Date.lt dt lo then some []
      else
        match headerline m n with
        | none => none
        | some s => (dateScan hi lo rest (n + 1)).map (s :: ·)

/-- `MailboxAdapter.__filterby_date(date1, date2)`. `now` is
`datetime.datetime.now()`, used when `date2` is absent. An unparseable
`date1` leaves `dt1 = None`, and `dt2 > dt1` then raises `TypeError`; an
unparseable *given* `date2` raises `ValueError` (only `TypeError` is caught
around its `strptime`). -/
def filterbyDate (now : Date) (date1 : String) (date2 : Option String)
    (mb : List Message) : Except PyErr (List String) :=
  let dt1? := parseDMY date1
  let dt2? : Except PyErr Date :=
    match date2 with
    | none => .ok now
    | some d2 =>
      match parseDMY d2 with
      | some dt => .ok dt
      | none => .error .valueError
  match dt2? with
  | .error e => .error e
  | .ok dt2 =>
    match dt1? with
    | none => .error .typeError
    | some dt1 =>
      let (hi, lo) := if Date.lt dt1 dt2 then (dt2, dt1) else (dt1, dt2)
      match dateScan hi lo mb 0 with
      | none => .error .headerErr
      | some rows => .ok rows

/-- `MailboxAdapter.filterby(pattern)`: a no-op when already filtered, else
dispatch on the first whitespace token of the lower-cased pattern and store
the resulting rows in `_filtereddata`. Returns the post-call state and the
escaping exception, if any (an exception leaves the state unchanged, because
`_filtereddata` is only assigned on success). -/
def MailboxAdapter.filterby (now : Date) (a : MailboxAdapter)
    (pattern : String) : MailboxAdapter × Option PyErr :=
  match a.filtereddata with
  | some _ => (a, none)
  | none =>
    match pySplit (pyLower pattern) with
    | [] => (a, some .indexError)
    | p0 :: rest =>
      if (p0 = "from" ∨ p0 = "f") ∧ rest ≠ [] then
        match filterbyHeader Message.sender (pyJoin " " rest)
            a.mailbox 0 with
        | none => (a, some .headerErr)
        | some d => ({ a with filtereddata := some d }, none)
      else if (p0 = "subject" ∨ p0 = "s") ∧ rest ≠ [] then
        match filterbyHeader Message.subject (pyJoin " " rest)
            a.mailbox 0 with
        | none => (a, some .headerErr)
        | some d => ({ a with filtereddata := some d }, none)
      else if (p0 = "date" ∨ p0 = "d") ∧ rest ≠ [] then
        match rest with
        | d1 :: d2 :: _ =>
          match filterbyDate now d1 (some d2) a.mailbox with
          | .error e => (a, some e)
          | .ok d => ({ a with filtereddata := some d }, none)
        | [d1] =>
          match filterbyDate now d1 none a.mailbox with
          | .error e => (a, some e)
          | .ok d => ({ a with filtereddata := some d }, none)
        | [] => (a, some .indexError)
      else
        match filterPlain pattern a.mailbox 0 with
        | none => (a, some .headerErr)
        | some d => ({ a with filtereddata := some d }, none)

/-! ## `MessageAdapter` -/

/-- Helper for `pySplitlines`: accumulate the current line (reversed) and cut
at newlines. -/
def pySplitlinesAux : List Char → List Char → List String
  | acc, [] => if acc = [] then [] else [String.mk acc.reverse]
  | acc, '\n' :: t => String.mk acc.reverse :: pySplitlinesAux [] t
  | acc, c :: t => pySplitlinesAux (c :: acc) t

/-- Python `str.splitlines()` restricted to `\n` line boundaries (the line
separators that occur in decoded mail bodies). -/
def pySplitlines (s : String) : List String :=
  pySplitlinesAux [] s.data

/-- The state of a `MessageAdapter`: the rows (`_data`) and the
line-number-to-attachment dictionary (`_attachment`). In the source
`_attachment = {}` is a *class* attribute that `__init__` only ever mutates
in place (`self._attachment[lineno + i] = m`) and never rebinds, so one dict
is shared by every `MessageAdapter` instance and keeps the entries written
by earlier instances; the `attachment` field here is that shared dict as of
this adapter's construction. Lookup semantics of the dict are modelled by an
association list in which the most recent assignment to a key comes
first. -/
structure MessageAdapter where
  data : List String
  attachment : List (Int × Attachment)
  deriving Repr, DecidableEq

/-- `MessageAdapter.__init__(message)` with the class-level `_attachment`
dict threaded explicitly: `shared` is the dict's contents before this
construction, and the returned adapter's `attachment` is the same dict
afterwards — this message's entries written on top of whatever earlier
instances left there. The four header rows are built first; when the message
has attachments (`is_multipart()`), one `Attachment i: …` row per payload
part is appended and the part is assigned into the shared dict under its
line number (`lineno + i` with `lineno = len(data) = 4`); finally a blank
separator and the body lines follow. `htmlLines` stands for the
`BlueHTMLParser` collaborator used for `text/html` bodies
(`''.join(parser.get_result()).splitlines()`). -/
def mkMessageAdapter (htmlLines : String → List String)
    (shared : List (Int × Attachment)) (m : Message) :
    MessageAdapter :=
  let data0 : List String :=
    [pyJoin " " ["Date:", m.date],
     pyJoin " " ["To:", pyStrip m.recipient],
     pyJoin " " ["From:", pyStrip m.sender],
     pyJoin " " ["Subject:", pyStrip m.subject]]
  let lineno := data0.length
  let attachRows : List String :=
    if m.multipart then
      m.attachments.enum.map fun p =>
        pyJoin " "
          ["Attachment", toString (p.1 + 1) ++ ":",
           p.2.filename.getD "<unknown>",
           "<" ++ p.2.contentType ++ ">"]
    else []
  let attachMap : List (Int × Attachment) :=
    (if m.multipart then
      m.attachments.enum.map fun p => (((lineno + p.1 : Nat) : Int), p.2)
    else []) ++ shared
  let bodyRows : List String :=
    if m.contentType = "text/html" then htmlLines m.body
    else pySplitlines m.body
  ⟨data0 ++ attachRows ++ ["\n"] ++ bodyRows, attachMap⟩

/-- `MessageAdapter.get_attachment(lineno, failobj)`: look `lineno` up in
`_attachment`; the `KeyError` of a missing key is caught and `failobj`
(default `None`) returned. -/
def MessageAdapter.getAttachment (ma : MessageAdapter) (lineno : Int)
    (failobj : Option Attachment) : Option Attachment :=
  match ma.attachment.lookup lineno with
  | some att => some att
  | none => failobj

/-! ## The screen stack (`Application._startActivity` / `_destroyActivity`)

Activities are identified by `Nat` ids; the stack's top is the *last* list
element (Python `append`/`pop`). Bundles are modelled as `Option Nat`
(`none` = Python `None`). The lifecycle callbacks of the activities are kept
abstract: `pauseRaises a` says whether `a.onPause()` raises, and
`destroyBundle a` is the bundle `a.onDestroy()` returns. The calls a
transition makes are recorded, in order, in a trace of `AppEvent`s. -/

/-- One lifecycle call made by the screen-stack engine. -/
inductive AppEvent where
  /-- `a.onPause()` was called; `ok` is false when it raised. -/
  | pause (a : Nat) (ok : Bool)
  /-- `a.onCreate(bundle)` -/
  | create (a : Nat) (bundle : Option Nat)
  /-- `a.onResume(bundle)` -/
  | resume (a : Nat) (bundle : Option Nat)
  /-- `a.draw()` -/
  | draw (a : Nat)
  /-- `a.onDestroy()` -/
  | destroy (a : Nat)
  deriving Repr, DecidableEq

/-- `Application._startActivity(activity, bundle)`: pause the current top
inside `try: … except: pass` (an empty stack's `IndexError` and a raising
`onPause` are both swallowed), append the activity, then `onCreate(bundle)`,
`onResume(bundle)`, `draw()`. -/
def startActivity (pauseRaises : Nat → Bool) (stack : List Nat) (act : Nat)
    (bundle : Option Nat) : List Nat × List AppEvent :=
  let ev0 : List AppEvent :=
    match stack.getLast? with
    | some t => [.pause t (!pauseRaises t)]
    | none => []
  (stack ++ [act], ev0 ++ [.create act bundle, .resume act bundle, .draw act])

/-- `Application._destroyActivity(activity)`: the body runs inside
`try: … except IndexError: success = False finally: return success`.
An empty stack hits `IndexError` (failure); naming a non-top activity raises
`ValueError`, which no `except` arm matches — but the `return` in the
`finally` block *discards* the in-flight exception, so the call still returns
`success = True`, having popped nothing and called nothing. Otherwise the top
is popped, paused and destroyed, and the new top (if any — otherwise
`IndexError`, i.e. "stack exhausted") is resumed with the destroy bundle and
redrawn. -/
def destroyActivity (pauseRaises : Nat → Bool)
    (destroyBundle : Nat → Option Nat) (stack : List Nat)
    (target : Option Nat) : List Nat × List AppEvent × Bool :=
  match stack.getLast? with
  | none => (stack, [], false)
  | some top =>
    let act := target.getD top
    if act ≠ top then
      (stack, [], true)
    else
      let stack' := stack.dropLast
      if pauseRaises top then
        (stack', [.pause top false], true)
      else
        let b := destroyBundle top
        match stack'.getLast? with
        | none => (stack', [.pause top true, .destroy top], false)
        | some newtop =>
          (stack', [.pause top true, .destroy top, .resume newtop b,
                    .draw newtop], true)

/-! ## `ListView` -/

/-- `n` consecutive integers counting up from `a`. -/
def intRangeFrom (a : Int) : Nat → List Int
  | 0 => []
  | n + 1 => a :: intRangeFrom (a + 1) n

/-- `n` consecutive integers counting down from `a`. -/
def intRangeDown (a : Int) : Nat → List Int
  | 0 => []
  | n + 1 => a :: intRangeDown (a - 1) n

/-- Python `range(a, b)` over `Int`. -/
def pyRangeAsc (a b : Int) : List Int :=
  intRangeFrom a (b - a).toNat

/-- Python `range(a, b, -1)` over `Int`. -/
def pyRangeDesc (a b : Int) : List Int :=
  intRangeDown a (a - b).toNat

/-- Search for `pat` as a prefix of successive suffixes of `rest`, reporting
the absolute index of the first hit. -/
def findAux (pat : List Char) : List Char → Nat → Option Nat
  | rest, i =>
    if pat.isPrefixOf rest then some i
    else
      match rest with
      | [] => none
      | _ :: t => findAux pat t (i + 1)

/-- Python `line.find(pat, start)` (as `Option`): the smallest index
`≥ start` where `pat` occurs in `line`, `none` when there is none or when
`start > len(line)`. -/
def pyFind (line pat : String) (start : Nat) : Option Nat :=
  if start ≤ line.length then findAux pat.data (line.data.drop start) start
  else none

/-- The `while x >= 0` loop of `ListView.highlighttext`, with an explicit
iteration bound standing in for the loop's termination argument: collect the
result of `line.find(pattern)` and keep searching from one past each hit.
Each iteration advances the search position by at least one and `find`
fails for positions past the end of the line, so `line.length + 1` rounds
of fuel make `occLoop` agree with the unbounded loop on every input. -/
def occLoop (line pat : String) : Nat → Nat → List Nat
  | 0, _ => []
  | fuel + 1, start =>
    match pyFind line pat start with
    | none => []
    | some x => x :: occLoop line pat fuel (x + 1)

/-- All occurrence offsets of `pat` in `line`, first to last. -/
def occurrences (line pat : String) : List Nat :=
  occLoop line pat (line.length + 1) 0

/-- The state of a `ListView`: the rows its adapter yields (`len(adapter)` =
`rows.length`, the viewport being studied over a fixed row collection), the
window height `maxy`, the cursor `pos`, window bounds `top`/`bottom`, the
horizontal offset `x`, `_end`, and the highlight state. -/
structure ListView where
  rows : List String
  maxy : Int
  pos : Int
  top : Int
  bottom : Int
  x : Int
  endd : Int
  highlight : Bool
  hltext : String
  hlcoords : List (Int × List Nat)
  deriving Repr, DecidableEq

/-- `len(self._adapter)` as seen by the view. -/
def ListView.len (st : ListView) : Int :=
  (st.rows.length : Int)

/-- `ListView.__init__` followed by the `adapter` setter: cursor and window
at the origin (`bottom = maxy`), `_end = len(adapter)`, no highlight. -/
def mkListView (maxy : Int) (rows : List String) : ListView :=
  ⟨rows, maxy, 0, 0, maxy, 0, (rows.length : Int), false, "", []⟩

/-- `ListView._move(y)`: scroll so that a valid `y` is visible (window
untouched when `top ≤ y ≤ bottom`) and set the cursor to it; out-of-range
`y` and `y == pos` leave the state unchanged. -/
def ListView.move (st : ListView) (y : Int) : ListView :=
  if y = st.pos then st
  else if 0 ≤ y ∧ y < st.len then
    let st1 :=
      if y < st.top then
        { st with top := y, bottom := min (y + st.maxy) st.len }
      else if st.bottom < y then
        let b := min (y + st.maxy) st.len
        { st with bottom := b, top := max (b - st.maxy) 0 }
      else st
    { st1 with pos := y }
  else st

/-- The keys `ListView.onKey` reacts to. -/
inductive Key where
  | up
  | down
  | ppage
  | npage
  | left
  | right
  | nextMatch
  | prevMatch
  deriving Repr, DecidableEq

/-- `ListView.onKey`, one transition of the viewport state machine. -/
def ListView.step (st : ListView) (k : Key) : ListView :=
  match k with
  | .up =>
    if 0 < st.pos then
      let st := { st with pos := st.pos - 1 }
      if st.pos < st.top then
        { st with top := st.top - 1, bottom := st.bottom - 1 }
      else st
    else st
  | .down =>
    if st.pos < st.len - 1 then
      let st := { st with pos := st.pos + 1 }
      if st.bottom ≤ st.pos then
        { st with top := st.top + 1, bottom := st.bottom + 1 }
      else st
    else st
  | .ppage =>
    let tmp := st.pos - st.maxy - 1
    if tmp ≤ 0 then
      { st with pos := 0, top := 0, bottom := st.maxy }
    else
      { st with pos := tmp, top := tmp, bottom := tmp + st.maxy }
  | .npage =>
    let tmp := st.pos + st.maxy - 1
    if st.len - 1 ≤ tmp then
      { st with pos := st.len - 1, bottom := st.len,
                top := st.len - st.maxy }
    else
      let b := min (tmp + st.maxy) st.len
      { st with pos := tmp, bottom := b, top := b - st.maxy }
  | .left =>
    if 0 < st.x then { st with x := st.x - 1 } else st
  | .right =>
    { st with x := st.x + 1 }
  | .nextMatch =>
    if st.highlight then
      match (pyRangeAsc (st.pos + 1) st.endd).find?
          (fun y => (st.hlcoords.lookup y).isSome) with
      | some y => st.move y
      | none => st
    else st
  | .prevMatch =>
    if st.highlight then
      match (pyRangeDesc (st.pos - 1) 0).find?
          (fun y => (st.hlcoords.lookup y).isSome) with
      | some y => st.move y
      | none => st
    else st

/-- `ListView.highlighttext(pattern)`: record, for every row of the adapter,
the offsets of all occurrences of `pattern`; when at least one row matches,
turn the highlight on and `_move` to the first matching row at or after the
cursor (the cursor's own row when none is); return `len(coord)`, the number
of matching rows. -/
def ListView.highlighttext (st : ListView) (pattern : String) :
    ListView × Nat :=
  let coord : List (Int × List Nat) :=
    st.rows.enum.filterMap fun p =>
      match occurrences p.2 pattern with
      | [] => none
      | occ => some ((p.1 : Int), occ)
  if coord.length ≠ 0 then
    let st' := { st with highlight := true, hltext := pattern,
                         hlcoords := coord }
    let hly :=
      match coord.find? (fun p => st.pos ≤ p.1) with
      | some p => p.1
      | none => st.pos
    (st'.move hly, coord.length)
  else (st, 0)

/-! ## Specification-side forms used to settle the claims -/

/-- The materialized prefix invariant of an adapter: `_data` is a prefix of
the logical row sequence — row `j` of `_data` is the header line of message
`j` of the backing mailbox. -/
def GoodData (mb : List Message) (d : List String) : Prop :=
  d.length ≤ mb.length ∧
    ∀ j, j < d.length → d.get? j = (mb.get? j).bind (fun m => headerline m j)

/-- Specification form of the plain scan: keep exactly the messages in which
the **raw** query occurs, case-sensitively, as a substring of the sender, the
subject or the body, and map them to their header rows. (The spec claims the
comparison is case-insensitive; the code lower-cases the query only for
keyword dispatch and scans with the raw pattern.) -/
def plainFilterSpec (pattern : String) (mb : List Message) :
    Option (List String) :=
  (mb.enum.filter fun p =>
    pyContains p.2.sender pattern || pyContains p.2.subject pattern ||
      pyContains p.2.body pattern).mapM fun p => headerline p.2 p.1

/-- `dt > upper bound` on a message: the message's header date parses and is
strictly newer than `hi`. -/
def msgTooNew (hi : Date) (m : Message) : Bool :=
  match parseHeaderDate (pySlice m.date 5 16) with
  | some dt => Date.lt hi dt
  | none => false

/-- The scan stops here: the message's header date parses and is strictly
older than the lower bound `lo`. -/
def msgTooOld (lo : Date) (m : Message) : Bool :=
  match parseHeaderDate (pySlice m.date 5 16) with
  | some dt => Date.lt dt lo
  | none => false

/-- The message's header date parses and lies in the inclusive range
`[lo, hi]`. -/
def msgInRange (lo hi : Date) (m : Message) : Bool :=
  match parseHeaderDate (pySlice m.date 5 16) with
  | some dt => !(Date.lt hi dt) && !(Date.lt dt lo)
  | none => false

/-- Specification form of the date filter, following the claim's words: keep
exactly the messages whose parsed date lies in the inclusive range
`[lo, hi]`, scanning the collection in order and stopping at the first
message whose parsed date is strictly older than the lower bound. -/
def dateFilterSpec (lo hi : Date) (mb : List Message) :
    Option (List String) :=
  ((mb.enum.takeWhile fun p => !(msgTooOld lo p.2)).filter
      fun p => msgInRange lo hi p.2).mapM fun p => headerline p.2 p.1

/-! ## The viewport invariant and the transitions the spec quantifies over -/

/-- The invariant claimed for the viewport:
`0 ≤ top ≤ cursor < bottom` and `bottom - top ≤ height`. -/
def ViewInv (h : Int) (st : ListView) : Prop :=
  0 ≤ st.top ∧ st.top ≤ st.pos ∧ st.pos < st.bottom ∧ st.bottom - st.top ≤ h

instance (h : Int) (st : ListView) : Decidable (ViewInv h st) :=
  inferInstanceAs (Decidable (_ ∧ _ ∧ _ ∧ _))

/-- The transitions the claim quantifies over: cursor up/down, page
up/down, and `jumpTo`/`_move`. -/
inductive VOp where
  | up
  | down
  | ppage
  | npage
  | mv (y : Int)
  deriving Repr, DecidableEq

/-- Apply one transition. -/
def applyVOp (st : ListView) : VOp → ListView
  | .up => st.step .up
  | .down => st.step .down
  | .ppage => st.step .ppage
  | .npage => st.step .npage
  | .mv y => st.move y

/-- Side condition under which a transition keeps the invariant: `_move(y)`
must not target the current `bottom` (the code leaves the window in place for
`top ≤ y ≤ bottom` and then sets `pos := y`, so `y = bottom` lands the cursor
on the first row *past* the window). -/
def AllowedOp (st : ListView) : VOp → Prop
  | .mv y => y ≠ st.bottom
  | _ => True

/-- Apply a sequence of transitions. -/
def applyVOps (st : ListView) (ops : List VOp) : ListView :=
  ops.foldl applyVOp st

/-- Every transition of the sequence satisfies its side condition in the
state where it fires. -/
def SafeOps : ListView → List VOp → Prop
  | _, [] => True
  | st, op :: ops => AllowedOp st op ∧ SafeOps (applyVOp st op) ops

/-! ## Concrete inputs used by witnesses and counterexamples -/

/-- A plain-text, non-multipart message with the given date, sender, subject
and body. -/
def plainMsg (d f s b : String) : Message :=
  ⟨d, f, s, "to@example.org", false, b, "text/plain", []⟩

/-- A multipart message with two attachments. -/
def msgW : Message :=
  ⟨"Sat, 16 Jan 2013 10:00:00", "alice@example.org", "Report",
   "bob@example.org", true, "see attachment", "text/plain",
   [⟨some "a.pdf", "application/pdf"⟩, ⟨none, "image/png"⟩]⟩

/-- The spec's `["A", "B", "C"]` scenario: three messages whose subjects are
`A`, `B` and `C`. -/
def mbABC : List Message :=
  [plainMsg "1 Jan 2020" "x1" "A" "",
   plainMsg "2 Jan 2020" "x2" "B" "",
   plainMsg "3 Jan 2020" "x3" "C" ""]

/-- The spec's date-filter scenario: a message dated 15 Jan 2020 followed by
one dated 01 Mar 2020. -/
def mbDates : List Message :=
  [plainMsg "Wed, 15 Jan 2020 09:00:00" "p" "january mail" "",
   plainMsg "Sun, 01 Mar 2020 09:00:00" "q" "march mail" ""]

/-- A 41-message mailbox: one more than the 30 rows materialized at
construction plus one fetch batch of 10. -/
def mb41 : List Message :=
  List.replicate 41 (plainMsg "1 Jan 2020" "x" "s" "")

/-- An unfiltered adapter over `mbABC` with an empty materialized prefix
(rows are then fetched on demand by `getitem`). -/
def adABC : MailboxAdapter := ⟨mbABC, [], none⟩

/-- An unfiltered adapter over `mbDates`. -/
def adDates : MailboxAdapter := ⟨mbDates, [], none⟩

/-- The viewport state reached by highlighting `"m"` over `["m", "a", "m"]`
(matching rows 0 and 2, cursor staying on row 0) and then pressing
`nextMatch`, which moves the cursor to row 2. -/
def st9 : ListView :=
  (((mkListView 2 ["m", "a", "m"]).highlighttext "m").1).step .nextMatch

/-! ## Claims about the screen stack (C3, C7) -/

/-- **C3.** The claim says a `pop` naming a non-top screen *fails* with
`InvalidTarget`. The code does raise `ValueError` at the non-top check, but
the `return success` sitting in the `finally` block of
`_destroyActivity` discards the in-flight exception, so the call actually
reports *success* (`True`). The part of the claim that holds: no screen is
removed and no lifecycle callback runs (empty event trace, unchanged stack).
Evaluation of the model at the failing input `stack = [0, 1]`, `pop(0)`. -/
theorem popNonTop_reportsSuccess :
    destroyActivity (fun _ => false) (fun _ => none) [0, 1] (some 0) =
      ([0, 1], [], true) := rfl

/-- **C7.** Lifecycle call order. Pushing onto a non-empty stack pauses the
old top (whether or not `onPause` raises — the exception is swallowed), then
appends the new screen and calls `onCreate(bundle)`, `onResume(bundle)` and a
redraw, in exactly that order. Popping (no target, callbacks well-behaved)
removes the top, calls its `onPause` then `onDestroy`, and the bundle
returned by `onDestroy` is passed to the new top's `onResume`, followed by a
redraw. -/
theorem lifecycle_order (pf : Nat → Bool) (db : Nat → Option Nat)
    (s s' : List Nat) (t t' u a : Nat) (b : Option Nat)
    (hpf : pf u = false) :
    startActivity pf (s ++ [t]) a b =
      (s ++ [t] ++ [a],
       [.pause t (!pf t), .create a b, .resume a b, .draw a])
    ∧ destroyActivity pf db (s' ++ [t'] ++ [u]) none =
      (s' ++ [t'],
       [.pause u true, .destroy u, .resume t' (db u), .draw t'], true) := by
  constructor
  · simp [startActivity, List.getLast?_concat]
  · have h1 : (s' ++ [t'] ++ [u]).getLast? = some u := List.getLast?_concat _
    have h2 : (s' ++ [t'] ++ [u]).dropLast = s' ++ [t'] :=
      List.dropLast_concat
    simp [destroyActivity, h1, h2, hpf, List.getLast?_concat]

/-- Witness for C7 at a concrete stack: push `2` onto `[0, 1]` with bundle
`5`, and pop the stack `[0, 1, 2]`. -/
theorem lifecycle_order_witness :
    ((fun _ => false : Nat → Bool) 2 = false)
    ∧ (startActivity (fun _ => false) ([0] ++ [1]) 2 (some 5) =
        ([0] ++ [1] ++ [2],
         [.pause 1 true, .create 2 (some 5), .resume 2 (some 5), .draw 2])
      ∧ destroyActivity (fun _ => false) (fun x => some x)
          ([0] ++ [1] ++ [2]) none =
        ([0] ++ [1],
         [.pause 2 true, .destroy 2, .resume 1 (some 2), .draw 1], true)) :=
  ⟨rfl, by
    have h := lifecycle_order (fun _ => false) (fun x => some x)
      [0] [0] 1 1 2 2 (some 5) rfl
    exact ⟨h.1, h.2⟩⟩

/-! ## C10: `MessageAdapter.get_attachment` -/

theorem lookup_attach_hit (c : Nat) (l : List Attachment) :
    ∀ (n i : Nat), i < l.length →
      ((l.enumFrom n).map
          (fun p => (((c + p.1 : Nat) : Int), p.2))).lookup
        ((c + n + i : Nat) : Int) = l.get? i := by
  induction l with
  | nil => intro n i hi; simp at hi
  | cons hd tl ih =>
    intro n i hi
    match i with
    | 0 =>
      simp [List.enumFrom, List.lookup]
    | j + 1 =>
      have hne : (((c + n + (j + 1) : Nat) : Int) == ((c + n : Nat) : Int))
          = false := by
        simp only [beq_eq_false_iff_ne, ne_eq, Int.natCast_inj]
        omega
      have := ih (n + 1) j (by simpa using hi)
      simp only [List.enumFrom, List.map_cons, List.lookup, hne]
      have harg : (c + (n + 1) + j : Nat) = (c + n + (j + 1) : Nat) := by omega
      rw [harg] at this
      simpa using this

theorem lookup_attach_miss (c : Nat) (l : List Attachment) :
    ∀ (n : Nat) (k : Int),
      (k < ((c + n : Nat) : Int) ∨ ((c + n + l.length : Nat) : Int) ≤ k) →
      ((l.enumFrom n).map
          (fun p => (((c + p.1 : Nat) : Int), p.2))).lookup k = none := by
  induction l with
  | nil => intro n k _; simp [List.enumFrom]
  | cons hd tl ih =>
    intro n k hk
    simp only [List.length_cons] at hk
    have hne : (k == ((c + n : Nat) : Int)) = false := by
      simp only [beq_eq_false_iff_ne, ne_eq]
      omega
    have := ih (n + 1) k (by omega)
    simp only [List.enumFrom, List.map_cons, List.lookup, hne]
    exact this

/-- A key found in the front part of an association list is found in the
whole list (the "most recent assignment first" dict representation). -/
theorem lookup_append_some {l1 l2 : List (Int × Attachment)} {k : Int}
    {v : Attachment} (h : l1.lookup k = some v) :
    (l1 ++ l2).lookup k = some v := by
  induction l1 with
  | nil => exact absurd h (by simp)
  | cons hd tl ih =>
    obtain ⟨k1, v1⟩ := hd
    simp only [List.lookup, List.cons_append] at h ⊢
    cases hbeq : (k == k1) with
    | true => rw [hbeq] at h; dsimp only at h ⊢; exact h
    | false => rw [hbeq] at h; dsimp only at h ⊢; exact ih h

/-- A key absent from the front part of an association list is looked up in
the rest. -/
theorem lookup_append_none {l1 l2 : List (Int × Attachment)} {k : Int}
    (h : l1.lookup k = none) :
    (l1 ++ l2).lookup k = l2.lookup k := by
  induction l1 with
  | nil => rfl
  | cons hd tl ih =>
    obtain ⟨k1, v1⟩ := hd
    simp only [List.lookup, List.cons_append] at h ⊢
    cases hbeq : (k == k1) with
    | true => rw [hbeq] at h; dsimp only at h; exact absurd h (by simp)
    | false => rw [hbeq] at h; dsimp only at h ⊢; exact ih h

/-- `get_attachment` on the shared-dict model: the attachment lines `4 + i`
of the most recently constructed adapter resolve to *its* message's payload
parts (its entries sit in front of the shared dict), and an integer outside
this message's attachment range falls through to the stale contents of the
shared dict — only when the shared dict has no entry for it either does the
call return `failobj`. The call itself never raises (`KeyError` is caught
and `failobj`, default `None`, returned). -/
theorem getAttachment_shared_spec (hl : String → List String)
    (shared : List (Int × Attachment)) (m : Message)
    (failobj : Option Attachment) :
    (∀ i : Nat, m.multipart = true → i < m.attachments.length →
        (mkMessageAdapter hl shared m).getAttachment ((4 + i : Nat) : Int)
          failobj = m.attachments.get? i)
    ∧ (∀ k : Int,
        (m.multipart = false ∨ k < (4 : Int)
          ∨ ((4 + m.attachments.length : Nat) : Int) ≤ k) →
        shared.lookup k = none →
        (mkMessageAdapter hl shared m).getAttachment k failobj = failobj) := by
  have hmap : (mkMessageAdapter hl shared m).attachment =
      (if m.multipart then
        m.attachments.enumFrom 0 |>.map
          (fun p => (((4 + p.1 : Nat) : Int), p.2))
      else []) ++ shared := by
    simp [mkMessageAdapter, List.enum]
  constructor
  · intro i hm hi
    have h := lookup_attach_hit 4 m.attachments 0 i hi
    rw [show (4 + i : Nat) = (4 + 0 + i : Nat) by omega] at h ⊢
    cases hgi : m.attachments.get? i with
    | none =>
      simp [List.get?_eq_none] at hgi
      omega
    | some att =>
      rw [hgi] at h
      simp only [MessageAdapter.getAttachment, hmap, hm, if_true,
        lookup_append_some h]
  · intro k hk hshared
    cases hm : m.multipart with
    | false =>
      simp only [MessageAdapter.getAttachment, hmap, hm, Bool.false_eq_true,
        if_false, List.nil_append, hshared]
    | true =>
      rcases hk with hk | hk | hk
      · rw [hm] at hk; cases hk
      · have h := lookup_attach_miss 4 m.attachments 0 k (by push_cast; omega)
        simp only [MessageAdapter.getAttachment, hmap, hm, if_true,
          lookup_append_none h, hshared]
      · have h := lookup_attach_miss 4 m.attachments 0 k
          (by push_cast at hk ⊢; omega)
        simp only [MessageAdapter.getAttachment, hmap, hm, if_true,
          lookup_append_none h, hshared]

/-- **C10.** The claim reads `get_attachment` as per-message: the recorded
attachment for an attachment line, `failobj` for every other integer. But
`_attachment = {}` is a class attribute, mutated in place by every
`__init__` and never rebound, so the dict is shared across all
`MessageAdapter` instances. Constructing an adapter for the multipart
`msgW` records its parts under lines 4 and 5; a second adapter built
afterwards for a *non-multipart* message inherits those stale entries, and
its `get_attachment(4, None)` returns `msgW`'s first attachment instead of
`failobj = None` — the code contradicts the evident per-message intent of
its own docstring and caller (`MessageActivity` saves the attachment of the
message being viewed). Evaluation of the model at that failing input. -/
theorem getAttachment_stale_shared_dict :
    (((mkMessageAdapter (fun _ => []) [] msgW).attachment.lookup 4).isSome
      = true)
    ∧ (plainMsg "1 Jan 2020" "x" "s" "").multipart = false
    ∧ (mkMessageAdapter (fun _ => [])
          (mkMessageAdapter (fun _ => []) [] msgW).attachment
          (plainMsg "1 Jan 2020" "x" "s" "")).getAttachment 4 none =
        some ⟨some "a.pdf", "application/pdf"⟩ :=
  ⟨rfl, rfl, rfl⟩

/-! ## C4: `filterby` then `unfilter` -/

/-- `filterby` only ever assigns `_filtereddata`: the backing mailbox and the
materialized prefix `_data` are untouched in every dispatch branch (including
the branches that raise, which assign nothing at all). -/
theorem filterby_preserves (now : Date) (a : MailboxAdapter) (q : String) :
    ((a.filterby now q).1.mailbox = a.mailbox)
    ∧ ((a.filterby now q).1.data = a.data) := by
  unfold MailboxAdapter.filterby
  constructor <;> (repeat' split) <;> rfl

/-- **C4.** On an unfiltered adapter, `filterby(q)` followed by `unfilter()`
restores the exact original state — hence `length()` and every `get(i)` are
restored for every `i` and every query `q` (also the queries on which
`filterby` raises, since those leave the state unchanged); and `unfilter`
leaves the materialized prefix and the backing mailbox (hence the logical
length) untouched. -/
theorem filter_unfilter_roundtrip (now : Date) (a : MailboxAdapter)
    (q : String) (h : a.filtereddata = none) :
    ((a.filterby now q).1.unfilter = a)
    ∧ ((a.filterby now q).1.unfilter.len = a.len)
    ∧ (∀ i, (a.filterby now q).1.unfilter.getitem i = a.getitem i)
    ∧ ((a.filterby now q).1.unfilter.data = a.data)
    ∧ ((a.filterby now q).1.unfilter.mailbox = a.mailbox) := by
  obtain ⟨h1, h2⟩ := filterby_preserves now a q
  have he : (a.filterby now q).1.unfilter = a := by
    rcases hq : (a.filterby now q).1 with ⟨mb', d', fd'⟩
    rw [hq] at h1 h2
    cases a with
    | mk mb d fd =>
      simp only [MailboxAdapter.unfilter] at *
      simp_all
  refine ⟨he, by rw [he], fun i => by rw [he], by rw [he], by rw [he]⟩

/-- Witness for C4: the spec's `["A","B","C"]` scenario. Filtering the
(unfiltered) adapter over `mbABC` with query `"b"` and then unfiltering
restores the state; the restored length is 3 and the restored `get(2)` is
the `C` row. -/
theorem filter_unfilter_roundtrip_witness :
    (adABC.filtereddata = none)
    ∧ ((adABC.filterby ⟨2026, 1, 1⟩ "b").1.unfilter = adABC)
    ∧ ((adABC.filterby ⟨2026, 1, 1⟩ "b").1.unfilter.getitem 2 =
        adABC.getitem 2)
    ∧ adABC.len = 3
    ∧ (adABC.getitem 2).2 = .ok " 3    3 Jan 2020 x3              C" := by
  have h := filter_unfilter_roundtrip ⟨2026, 1, 1⟩ adABC "b" rfl
  exact ⟨rfl, h.1, h.2.2.1 2, rfl, rfl⟩

/-! ## C1: lazy `getitem` -/

theorem buildRows_spec (msgs : List Message) :
    ∀ n : Nat,
      (∀ j m, msgs.get? j = some m → (headerline m (n + j)).isSome) →
      (buildRows msgs n).2 = true
      ∧ (buildRows msgs n).1.length = msgs.length
      ∧ ∀ j, (buildRows msgs n).1.get? j =
          (msgs.get? j).bind (fun m => headerline m (n + j)) := by
  induction msgs with
  | nil =>
    intro n _
    refine ⟨rfl, rfl, fun j => by simp [buildRows]⟩
  | cons m rest ih =>
    intro n h
    have h0 : (headerline m n).isSome := by simpa using h 0 m rfl
    obtain ⟨s, hs⟩ := Option.isSome_iff_exists.mp h0
    have ih' := ih (n + 1) (fun j mm hj => by
      have := h (j + 1) mm (by simpa using hj)
      have harith : n + (j + 1) = n + 1 + j := by omega
      rwa [harith] at this)
    obtain ⟨hok, hlen, hget⟩ := ih'
    cases hbr : buildRows rest (n + 1) with
    | mk tail ok =>
      rw [hbr] at hok hlen hget
      simp only at hok hlen hget
      subst hok
      refine ⟨?_, ?_, ?_⟩
      · simp [buildRows, hs, hbr]
      · simp [buildRows, hs, hbr, hlen]
      · intro j
        match j with
        | 0 => simp [buildRows, hs, hbr]
        | j + 1 =>
          simp only [buildRows, hs, hbr, List.get?_cons_succ]
          have harith : n + (j + 1) = n + 1 + j := by omega
          rw [harith]
          exact hget j

/-- **C1 (amended).** For an unfiltered adapter satisfying the prefix
invariant, over a mailbox all of whose header lines format cleanly:
`get(i)` returns the header line derived from the backing collection at `i`
— transparently fetching **one** batch of up to 10 rows when `i` is beyond
the materialized prefix — whenever `i < min(materialized + 10, logical
length)`; and it fails with `IndexError` whenever `i` is at or beyond the
logical end **or** at or beyond materialized + 10 (so, contrary to the
original claim, also for indices below the logical end that are at least 10
past the materialized prefix; after a fetch the prefix is
`min(materialized + 10, logical length)` long). -/
theorem getitem_spec (a : MailboxAdapter) (i : Nat)
    (hf : a.filtereddata = none)
    (hgood : GoodData a.mailbox a.data)
    (hall : ∀ j, j < a.mailbox.length →
      ((a.mailbox.get? j).bind (fun m => headerline m j)).isSome) :
    (i < a.mailbox.length → i < a.data.length + 10 →
      ∃ a' s, a.getitem i = (a', .ok s)
        ∧ (a.mailbox.get? i).bind (fun m => headerline m i) = some s
        ∧ a'.mailbox = a.mailbox ∧ a'.filtereddata = none
        ∧ GoodData a.mailbox a'.data)
    ∧ ((a.mailbox.length ≤ i ∨ a.data.length + 10 ≤ i) →
      ∃ a', a.getitem i = (a', .error .indexError)
        ∧ a'.data.length = min (a.data.length + 10) a.mailbox.length) := by
  obtain ⟨hdlen, hdget⟩ := hgood
  set mb := a.mailbox with hmb
  set len := a.data.length with hlen
  -- the fetched batch
  set msgs' := (mb.drop len).take 10 with hmsgs
  have hmsgs_get : ∀ j, j < 10 → msgs'.get? j = mb.get? (len + j) := by
    intro j hj
    rw [hmsgs, List.get?_take hj, List.get?_drop]
  have hmsgs_len : msgs'.length = min 10 (mb.length - len) := by
    simp [hmsgs]
  have hbatch : ∀ j m, msgs'.get? j = some m →
      (headerline m (len + j)).isSome := by
    intro j m hj
    have hjlt : j < msgs'.length := (List.get?_eq_some.mp hj).1
    have hj10 : j < 10 := by omega
    rw [hmsgs_get j hj10] at hj
    have hlt : len + j < mb.length := (List.get?_eq_some.mp hj).1
    have := hall (len + j) hlt
    rw [hj] at this
    simpa using this
  obtain ⟨hok, hrlen, hrget⟩ := buildRows_spec msgs' len hbatch
  cases hbr : buildRows msgs' len with
  | mk rows ok =>
    rw [hbr] at hok hrlen hrget
    simp only at hok hrlen hrget
    subst hok
    have hdlen' : (a.data ++ rows).length = min (len + 10) mb.length := by
      simp only [List.length_append, hrlen, hmsgs_len]
      omega
    have hdget' : ∀ j, j < (a.data ++ rows).length →
        (a.data ++ rows).get? j = (mb.get? j).bind (fun m => headerline m j) := by
      intro j hj
      rcases lt_or_le j len with hjl | hjl
      · rw [List.get?_append hjl]
        exact hdget j hjl
      · rw [List.get?_append_right hjl, hrget (j - len)]
        have hj10 : j - len < 10 := by
          rw [hdlen'] at hj
          omega
        rw [hmsgs_get (j - len) hj10]
        have : len + (j - len) = j := by omega
        rw [this]
    constructor
    · intro hiN hi10
      rcases lt_or_le i len with hil | hil
      · -- already materialized
        have hv := hdget i hil
        have hvs : ((mb.get? i).bind (fun m => headerline m i)).isSome :=
          hall i hiN
        obtain ⟨s, hs⟩ := Option.isSome_iff_exists.mp hvs
        refine ⟨a, s, ?_, hs, rfl, hf, ⟨hdlen, hdget⟩⟩
        have : a.data.get? i = some s := by rw [hv, hs]
        simp only [MailboxAdapter.getitem, hf, this]
      · -- fetch path
        have hi' : i < (a.data ++ rows).length := by rw [hdlen']; omega
        have hv := hdget' i hi'
        have hvs : ((mb.get? i).bind (fun m => headerline m i)).isSome :=
          hall i hiN
        obtain ⟨s, hs⟩ := Option.isSome_iff_exists.mp hvs
        have hnone : a.data.get? i = none := List.get?_eq_none.mpr hil
        refine ⟨{ a with data := a.data ++ rows }, s, ?_, hs, rfl, hf,
          ?_⟩
        · have hval : (a.data ++ rows).get? i = some s := by rw [hv, hs]
          simp only [MailboxAdapter.getitem, hf, hnone, hbr, hval, if_true]
        · exact ⟨by rw [hdlen']; exact min_le_right _ _ |>.trans (le_refl _)
              |>.trans (by omega), hdget'⟩
    · intro hout
      have hil : len ≤ i := by omega
      have hnone : a.data.get? i = none := List.get?_eq_none.mpr hil
      have hnone' : (a.data ++ rows).get? i = none := by
        apply List.get?_eq_none.mpr
        rw [hdlen']
        omega
      refine ⟨{ a with data := a.data ++ rows }, ?_, by simpa using hdlen'⟩
      simp only [MailboxAdapter.getitem, hf, hnone, hbr, hnone', if_true]

/-- **C1 (counterexample to the original claim).** Over a 41-message mailbox
the constructor materializes 30 rows, so index 40 is 10 past the
materialized prefix: `get(40)` raises `IndexError` even though
`40 < 41 = logical length` — `get` does *not* succeed on every index below
the logical end. -/
theorem getitem_indexError_below_length :
    ((mkMailboxAdapter mb41).map (fun a => (a.getitem 40).2) =
      some (.error .indexError))
    ∧ 40 < mb41.length := ⟨rfl, by decide⟩

/-- Witness for C1 (amended) on `mbABC` with an empty materialized prefix:
`get(1)` fetches a batch and returns the `B` row. -/
theorem getitem_spec_witness :
    (adABC.filtereddata = none ∧ 1 < adABC.mailbox.length
      ∧ 1 < adABC.data.length + 10)
    ∧ (∃ a' s, adABC.getitem 1 = (a', .ok s)
        ∧ (adABC.mailbox.get? 1).bind (fun m => headerline m 1) = some s
        ∧ a'.mailbox = adABC.mailbox ∧ a'.filtereddata = none
        ∧ GoodData adABC.mailbox a'.data) := by
  refine ⟨⟨rfl, by decide, by decide⟩, ?_⟩
  exact (getitem_spec adABC 1 rfl
    ⟨by decide, fun j hj => by simp [adABC] at hj⟩
    (fun j hj => by
      have hj3 : j < 3 := by simpa [adABC, mbABC] using hj
      interval_cases j <;> decide)).1 (by decide) (by decide)

/-! ## C5: the plain-substring filter -/

theorem filterPlain_eq_spec (pattern : String) :
    ∀ (mb : List Message) (n : Nat),
      filterPlain pattern mb n =
        ((mb.enumFrom n).filter fun p =>
          pyContains p.2.sender pattern || pyContains p.2.subject pattern ||
            pyContains p.2.body pattern).mapM fun p => headerline p.2 p.1 := by
  intro mb
  induction mb with
  | nil => intro n; rfl
  | cons m rest ih =>
    intro n
    cases hc : (pyContains m.sender pattern ||
        pyContains m.subject pattern || pyContains m.body pattern) with
    | true =>
      simp only [filterPlain, hc, if_true, List.enumFrom, List.filter_cons,
        List.mapM_cons, ih (n + 1)]
      cases headerline m n with
      | none => simp
      | some s =>
        cases hr : ((rest.enumFrom (n + 1)).filter fun p =>
            pyContains p.2.sender pattern || pyContains p.2.subject pattern ||
              pyContains p.2.body pattern).mapM fun p => headerline p.2 p.1 with
        | none => simp [hr]
        | some tail => simp [hr]
    | false =>
      simp only [filterPlain, hc, List.enumFrom, List.filter_cons,
        Bool.false_eq_true, if_false]
      exact ih (n + 1)

/-- **C5 (amended).** For a query whose lower-cased first token does not form
a recognized `from`/`subject`/`date` keyword dispatch, `filterby` runs the
plain scan with the **raw, un-lowered** query: a message is included iff the
query occurs **case-sensitively** as a substring of its sender, subject or
body (the lower-casing in the code only feeds keyword dispatch, so e.g.
`filter("b")` does *not* match a subject `"B"`). -/
theorem filterby_plain_spec (now : Date) (a : MailboxAdapter)
    (pattern p0 : String) (rest : List String)
    (hf : a.filtereddata = none)
    (htok : pySplit (pyLower pattern) = p0 :: rest)
    (hkw1 : ¬((p0 = "from" ∨ p0 = "f") ∧ rest ≠ []))
    (hkw2 : ¬((p0 = "subject" ∨ p0 = "s") ∧ rest ≠ []))
    (hkw3 : ¬((p0 = "date" ∨ p0 = "d") ∧ rest ≠ [])) :
    (∀ d, plainFilterSpec pattern a.mailbox = some d →
      a.filterby now pattern = ({ a with filtereddata := some d }, none))
    ∧ filterPlain pattern a.mailbox 0 = plainFilterSpec pattern a.mailbox := by
  have heq : filterPlain pattern a.mailbox 0 =
      plainFilterSpec pattern a.mailbox := by
    rw [filterPlain_eq_spec pattern a.mailbox 0, plainFilterSpec, List.enum]
  refine ⟨?_, heq⟩
  intro d hd
  rw [← heq] at hd
  simp only [MailboxAdapter.filterby, hf, htok, if_neg hkw1, if_neg hkw2,
    if_neg hkw3, hd]

/-- **C5 (counterexample to the original claim).** Over the spec's own
`["A","B","C"]` scenario, `filter("b")` yields an *empty* filtered sequence
(`length() = 0`), not `["B"]` with `length() = 1` — even though the
lower-cased query does occur in the lower-cased subject, i.e. the match is
not case-insensitive. -/
theorem plainFilter_not_caseInsensitive :
    ((mkMailboxAdapter mbABC).map
        (fun a => (a.filterby ⟨2026, 1, 1⟩ "b").1.len) = some 0)
    ∧ pyContains (pyLower "B") (pyLower "b") = true := ⟨rfl, rfl⟩

/-- Witness for C5 (amended): query `"B"` dispatches to the plain scan and
selects exactly the `B` message, case-sensitively. -/
theorem filterby_plain_spec_witness :
    (adABC.filtereddata = none ∧ pySplit (pyLower "B") = ["b"]
      ∧ plainFilterSpec "B" adABC.mailbox =
          some [" 2    2 Jan 2020 x2              B"])
    ∧ adABC.filterby ⟨2026, 1, 1⟩ "B" =
        ({ adABC with
            filtereddata := some [" 2    2 Jan 2020 x2              B"] },
         none) := by
  refine ⟨⟨rfl, rfl, rfl⟩, ?_⟩
  exact (filterby_plain_spec ⟨2026, 1, 1⟩ adABC "B" "b" [] rfl rfl
    (by simp) (by simp) (by simp)).1 _ rfl

/-! ## C6: the two-date filter -/

theorem date_lt_iff (a b : Date) :
    Date.lt a b = true ↔
      (a.year < b.year ∨ (a.year = b.year ∧
        (a.month < b.month ∨ (a.month = b.month ∧ a.day < b.day)))) := by
  simp [Date.lt]

theorem date_lt_asymm {a b : Date} (h : Date.lt a b = true) :
    Date.lt b a = false := by
  rw [date_lt_iff] at h
  rw [Bool.eq_false_iff, ne_eq, date_lt_iff]
  omega

theorem date_not_lt_lower {hi lo dt : Date} (hlohi : Date.lt hi lo = false)
    (h : Date.lt hi dt = true) : Date.lt dt lo = false := by
  rw [Bool.eq_false_iff, ne_eq, date_lt_iff] at hlohi ⊢
  rw [date_lt_iff] at h
  omega

theorem dateScan_eq_spec (hi lo : Date) (hlohi : Date.lt hi lo = false) :
    ∀ (mb : List Message) (n : Nat),
      dateScan hi lo mb n =
        (((mb.enumFrom n).takeWhile fun p => !(msgTooOld lo p.2)).filter
            fun p => msgInRange lo hi p.2).mapM fun p => headerline p.2 p.1 := by
  intro mb
  induction mb with
  | nil => intro n; rfl
  | cons m rest ih =>
    intro n
    cases hpd : parseHeaderDate (pySlice m.date 5 16) with
    | none =>
      have h1 : msgTooOld lo m = false := by simp [msgTooOld, hpd]
      have h2 : msgInRange lo hi m = false := by simp [msgInRange, hpd]
      simp only [dateScan, hpd, List.enumFrom, List.takeWhile_cons, h1, h2,
        Bool.not_false, if_true, List.filter_cons, Bool.false_eq_true,
        if_false]
      exact ih (n + 1)
    | some dt =>
      cases hhi : Date.lt hi dt with
      | true =>
        have hlo : Date.lt dt lo = false := date_not_lt_lower hlohi hhi
        have h1 : msgTooOld lo m = false := by simp [msgTooOld, hpd, hlo]
        have h2 : msgInRange lo hi m = false := by
          simp [msgInRange, hpd, hhi]
        simp only [dateScan, hpd, hhi, if_true, List.enumFrom,
          List.takeWhile_cons, h1, h2, Bool.not_false, List.filter_cons,
          Bool.false_eq_true, if_false]
        exact ih (n + 1)
      | false =>
        cases hlo : Date.lt dt lo with
        | true =>
          have h1 : msgTooOld lo m = true := by simp [msgTooOld, hpd, hlo]
          simp only [dateScan, hpd, hhi, hlo, Bool.false_eq_true, if_false,
            if_true, List.enumFrom, List.takeWhile_cons, h1, Bool.not_true]
          rfl
        | false =>
          have h1 : msgTooOld lo m = false := by simp [msgTooOld, hpd, hlo]
          have h2 : msgInRange lo hi m = true := by
            simp [msgInRange, hpd, hhi, hlo]
          simp only [dateScan, hpd, hhi, hlo, Bool.false_eq_true, if_false,
            List.enumFrom, List.takeWhile_cons, h1, h2, Bool.not_false,
            if_true, List.filter_cons, List.mapM_cons, ih (n + 1)]
          cases headerline m n with
          | none => simp
          | some s =>
            cases hr : (((rest.enumFrom (n + 1)).takeWhile
                fun p => !(msgTooOld lo p.2)).filter
                  fun p => msgInRange lo hi p.2).mapM
                    fun p => headerline p.2 p.1 with
            | none => simp [hr]
            | some tail => simp [hr]

/-- **C6.** A two-date filter `d d1 d2` (both dates parsing as `dd/mm/yyyy`)
arranges its bounds as `lo = min(d1, d2)`, `hi = max(d1, d2)` and stores
exactly the rows `dateFilterSpec lo hi` describes: the messages whose parsed
header date lies in the inclusive range `[lo, hi]`, scanning in collection
order and stopping at the first message strictly older than `lo` (messages
with unparseable dates are skipped and do not stop the scan). -/
theorem filterby_date_spec (now : Date) (a : MailboxAdapter)
    (pattern p0 d1 d2 : String) (rest : List String) (u v : Date)
    (hf : a.filtereddata = none)
    (htok : pySplit (pyLower pattern) = p0 :: d1 :: d2 :: rest)
    (hp0 : p0 = "date" ∨ p0 = "d")
    (hd1 : parseDMY d1 = some u)
    (hd2 : parseDMY d2 = some v) :
    (∀ rows,
      dateFilterSpec (if Date.lt u v then u else v)
          (if Date.lt u v then v else u) a.mailbox = some rows →
      a.filterby now pattern = ({ a with filtereddata := some rows }, none))
    ∧ ∀ (hi lo : Date) (mb : List Message), Date.lt hi lo = false →
        dateScan hi lo mb 0 = dateFilterSpec lo hi mb := by
  have hlaw : ∀ (hi lo : Date) (mb : List Message), Date.lt hi lo = false →
      dateScan hi lo mb 0 = dateFilterSpec lo hi mb := by
    intro hi lo mb h
    rw [dateScan_eq_spec hi lo h mb 0, dateFilterSpec, List.enum]
  refine ⟨?_, hlaw⟩
  intro rows hrows
  have hne : p0 ≠ "from" ∧ p0 ≠ "f" ∧ p0 ≠ "subject" ∧ p0 ≠ "s" := by
    rcases hp0 with h | h <;> subst h <;> refine ⟨?_, ?_, ?_, ?_⟩ <;> decide
  have hc1 : ¬((p0 = "from" ∨ p0 = "f") ∧ d1 :: d2 :: rest ≠ []) := by
    rintro ⟨h | h, -⟩
    · exact hne.1 h
    · exact hne.2.1 h
  have hc2 : ¬((p0 = "subject" ∨ p0 = "s") ∧ d1 :: d2 :: rest ≠ []) := by
    rintro ⟨h | h, -⟩
    · exact hne.2.2.1 h
    · exact hne.2.2.2 h
  have hc3 : (p0 = "date" ∨ p0 = "d") ∧ d1 :: d2 :: rest ≠ [] :=
    ⟨hp0, by simp⟩
  have hswap : Date.lt (if Date.lt u v then v else u)
      (if Date.lt u v then u else v) = false := by
    cases huv : Date.lt u v with
    | true => simpa using date_lt_asymm huv
    | false => simpa using huv
  have hscan := hlaw (if Date.lt u v then v else u)
    (if Date.lt u v then u else v) a.mailbox hswap
  rw [hrows] at hscan
  simp only [MailboxAdapter.filterby, hf, htok, if_neg hc1, if_neg hc2,
    if_pos hc3, filterbyDate, hd1, hd2]
  cases huv : Date.lt u v with
  | true =>
    rw [huv] at hscan
    simp only [huv, if_true] at hscan ⊢
    rw [hscan]
  | false =>
    rw [huv] at hscan
    simp only [huv, Bool.false_eq_true, if_false] at hscan ⊢
    rw [hscan]

/-- Witness for C6: the spec's scenario — messages dated 15 Jan 2020 and
01 Mar 2020, query `d 01/01/2020 31/01/2020`: exactly the January message's
row is stored. -/
theorem filterby_date_spec_witness :
    (adDates.filtereddata = none
      ∧ pySplit (pyLower "d 01/01/2020 31/01/2020") =
          ["d", "01/01/2020", "31/01/2020"]
      ∧ parseDMY "01/01/2020" = some ⟨2020, 1, 1⟩
      ∧ parseDMY "31/01/2020" = some ⟨2020, 1, 31⟩
      ∧ dateFilterSpec ⟨2020, 1, 1⟩ ⟨2020, 1, 31⟩ adDates.mailbox =
          some [" 1   15 Jan 2020 p               january mail"])
    ∧ adDates.filterby ⟨2026, 1, 1⟩ "d 01/01/2020 31/01/2020" =
        ({ adDates with
            filtereddata :=
              some [" 1   15 Jan 2020 p               january mail"] },
         none) := by
  refine ⟨⟨rfl, rfl, rfl, rfl, rfl⟩, ?_⟩
  exact (filterby_date_spec ⟨2026, 1, 1⟩ adDates "d 01/01/2020 31/01/2020"
    "d" "01/01/2020" "31/01/2020" [] ⟨2020, 1, 1⟩ ⟨2020, 1, 31⟩
    rfl rfl (Or.inr rfl) rfl rfl).1 _ rfl

/-! ## C2: the viewport invariant -/

/-- One transition preserves the invariant (and the fixed data of the
view), provided the source is at least one viewport tall and `_move` does
not target the current `bottom`. -/
theorem viewInv_step (st : ListView) (op : VOp)
    (h1 : 1 ≤ st.maxy) (hlen : st.maxy ≤ st.len)
    (hinv : ViewInv st.maxy st) (hop : AllowedOp st op) :
    ViewInv st.maxy (applyVOp st op)
    ∧ (applyVOp st op).rows = st.rows
    ∧ (applyVOp st op).maxy = st.maxy := by
  obtain ⟨i1, i2, i3, i4⟩ := hinv
  cases op with
  | up =>
    simp only [applyVOp, ListView.step]
    split_ifs <;>
      (refine ⟨⟨?_, ?_, ?_, ?_⟩, rfl, rfl⟩ <;> dsimp only at * <;> omega)
  | down =>
    simp only [applyVOp, ListView.step, ListView.len] at hlen ⊢
    split_ifs <;>
      (refine ⟨⟨?_, ?_, ?_, ?_⟩, rfl, rfl⟩ <;> dsimp only at * <;> omega)
  | ppage =>
    simp only [applyVOp, ListView.step]
    split_ifs <;>
      (refine ⟨⟨?_, ?_, ?_, ?_⟩, rfl, rfl⟩ <;> dsimp only at * <;> omega)
  | npage =>
    simp only [applyVOp, ListView.step, ListView.len] at hlen ⊢
    split_ifs <;>
      (refine ⟨⟨?_, ?_, ?_, ?_⟩, rfl, rfl⟩ <;> dsimp only at * <;> omega)
  | mv y =>
    have hby : y ≠ st.bottom := hop
    simp only [applyVOp, ListView.move, ListView.len] at hlen ⊢
    split_ifs <;>
      first
      | exact ⟨⟨i1, i2, i3, i4⟩, rfl, rfl⟩
      | (refine ⟨⟨?_, ?_, ?_, ?_⟩, rfl, rfl⟩ <;> dsimp only at * <;> omega)

/-- **C2 (amended).** When the viewport height is at least 1 and the source
has at least one full viewport of rows, the invariant
`0 ≤ top ≤ cursor < bottom ∧ bottom - top ≤ height` holds in the initial
state and after every sequence of cursor up/down, page up/down and
`_move` transitions in which `_move` never targets the current `bottom`.
(For shorter sources page-down drives `top` negative — see the
counterexample — and `_move(bottom)` parks the cursor on `bottom` itself,
so both restrictions are forced.) -/
theorem viewport_invariant (rows : List String) (hgt : Int)
    (h1 : 1 ≤ hgt) (hlen : hgt ≤ (rows.length : Int)) :
    ViewInv hgt (mkListView hgt rows)
    ∧ ∀ ops : List VOp, SafeOps (mkListView hgt rows) ops →
        ViewInv hgt (applyVOps (mkListView hgt rows) ops) := by
  have hinit : ViewInv hgt (mkListView hgt rows) := by
    refine ⟨by simp [mkListView], by simp [mkListView], ?_, ?_⟩ <;>
      simp [mkListView] <;> omega
  refine ⟨hinit, ?_⟩
  suffices haux : ∀ (ops : List VOp) (st : ListView), st.rows = rows →
      st.maxy = hgt → ViewInv hgt st → SafeOps st ops →
      ViewInv hgt (applyVOps st ops) by
    intro ops hsafe
    exact haux ops (mkListView hgt rows) rfl rfl hinit hsafe
  intro ops
  induction ops with
  | nil => intro st _ _ hinv _; exact hinv
  | cons op rest ih =>
    intro st hrows hmaxy hinv hsafe
    obtain ⟨hop, hsafe'⟩ := hsafe
    have hstep := viewInv_step st op (by omega) (by
        simp only [ListView.len, hrows]; omega)
      (by rw [← hmaxy] at hinv; exact hinv) hop
    have h1' := hstep.1
    rw [hmaxy] at h1'
    exact ih (applyVOp st op) (hstep.2.1.trans hrows)
      (hstep.2.2.trans hmaxy) h1' hsafe'

/-- **C2 (counterexample to the original claim).** Over an *empty* source
(length 0 < viewport height 5), a single page-down transition sets
`pos = -1`, `top = -5`, `bottom = 0`: `0 ≤ top` (and `0 ≤ cursor`) fail, so
the invariant does not survive arbitrary sequences at the collection's
boundary cases. -/
theorem viewport_invariant_breaks_on_short :
    ¬ ViewInv 5 ((mkListView 5 []).step .npage) := by decide

/-- Witness for C2 (amended): height 1 over a one-row source, running
down, page-down, `_move(0)`, up. -/
theorem viewport_invariant_witness :
    ((1 : Int) ≤ 1 ∧ (1 : Int) ≤ ((["r"].length : Nat) : Int)
      ∧ SafeOps (mkListView 1 ["r"]) [.down, .npage, .mv 0, .up])
    ∧ ViewInv 1
        (applyVOps (mkListView 1 ["r"]) [.down, .npage, .mv 0, .up]) := by
  have hsafe : SafeOps (mkListView 1 ["r"]) [.down, .npage, .mv 0, .up] := by
    simp only [SafeOps, AllowedOp]
    refine ⟨trivial, trivial, ?_, trivial, trivial⟩
    decide
  refine ⟨⟨by decide, by decide, hsafe⟩, ?_⟩
  exact (viewport_invariant ["r"] 1 (by decide) (by decide)).2
    [.down, .npage, .mv 0, .up] hsafe

/-! ## C8: `highlighttext` -/

theorem containsSub_iff (needle : List Char) :
    ∀ l, containsSub needle l = true ↔
      ∃ k, needle.isPrefixOf (l.drop k) = true := by
  intro l
  induction l with
  | nil =>
    simp only [containsSub, List.drop_nil]
    exact ⟨fun h => ⟨0, h⟩, fun ⟨_, h⟩ => h⟩
  | cons c t ih =>
    simp only [containsSub, Bool.or_eq_true, ih]
    constructor
    · rintro (h | ⟨k, hk⟩)
      · exact ⟨0, h⟩
      · exact ⟨k + 1, hk⟩
    · rintro ⟨k, hk⟩
      match k with
      | 0 => exact Or.inl hk
      | k + 1 => exact Or.inr ⟨k, hk⟩

theorem findAux_none_iff (pat : List Char) :
    ∀ (rest : List Char) (i : Nat),
      findAux pat rest i = none ↔
        ∀ k, ¬(pat.isPrefixOf (rest.drop k) = true) := by
  intro rest
  induction rest with
  | nil =>
    intro i
    rw [findAux]
    by_cases h : pat.isPrefixOf ([] : List Char) = true
    · rw [if_pos h]
      constructor
      · intro habs; exact absurd habs (by simp)
      · intro hall; exact absurd h (by simpa using hall 0)
    · rw [if_neg h]
      constructor
      · intro _ k; simpa using h
      · intro _; rfl
  | cons c t ih =>
    intro i
    rw [findAux]
    by_cases h : pat.isPrefixOf (c :: t) = true
    · rw [if_pos h]
      constructor
      · intro habs; exact absurd habs (by simp)
      · intro hall; exact absurd h (by simpa using hall 0)
    · rw [if_neg h]
      rw [ih (i + 1)]
      constructor
      · intro hall k
        match k with
        | 0 => simpa using h
        | k + 1 => exact hall k
      · intro hall k
        exact hall (k + 1)

theorem occurrences_eq_nil_iff (line pat : String) :
    occurrences line pat = [] ↔ pyFind line pat 0 = none := by
  unfold occurrences
  cases hpf : pyFind line pat 0 with
  | none => simp [occLoop, hpf]
  | some x => simp [occLoop, hpf]

/-- A row records no highlight occurrence iff the pattern does not occur in
it (Python `in`). -/
theorem occurrences_nil_iff_not_contains (line pat : String) :
    occurrences line pat = [] ↔ pyContains line pat = false := by
  rw [occurrences_eq_nil_iff, pyFind, if_pos (Nat.zero_le _), List.drop_zero,
    findAux_none_iff]
  rw [pyContains, Bool.eq_false_iff, ne_eq, containsSub_iff]
  simp

theorem coord_length (pattern : String) :
    ∀ (rows : List String) (n : Nat),
      ((rows.enumFrom n).filterMap fun p =>
        match occurrences p.2 pattern with
        | [] => none
        | occ => some ((p.1 : Int), occ)).length =
      (rows.filter fun row => pyContains row pattern).length := by
  intro rows
  induction rows with
  | nil => intro n; rfl
  | cons row rest ih =>
    intro n
    simp only [List.enumFrom, List.filterMap_cons, List.filter_cons]
    cases hocc : occurrences row pattern with
    | nil =>
      have hc : pyContains row pattern = false :=
        (occurrences_nil_iff_not_contains row pattern).mp hocc
      simp only [hc, Bool.false_eq_true, if_false]
      exact ih (n + 1)
    | cons o os =>
      have hc : pyContains row pattern = true := by
        by_contra hcf
        rw [Bool.not_eq_true, ← occurrences_nil_iff_not_contains row pattern,
          hocc] at hcf
        exact absurd hcf (by simp)
      simp only [hc, if_true, List.length_cons]
      rw [ih (n + 1)]

theorem coord_find (pattern : String) (pos : Int) :
    ∀ (rows : List String) (n : Nat),
      (((rows.enumFrom n).filterMap fun p =>
          match occurrences p.2 pattern with
          | [] => none
          | occ => some ((p.1 : Int), occ)).find?
            fun p => decide (pos ≤ p.1)).map Prod.fst =
      (((rows.enumFrom n).find? fun p =>
          pyContains p.2 pattern && decide (pos ≤ (p.1 : Int))).map
        fun p => ((p.1 : Int))) := by
  intro rows
  induction rows with
  | nil => intro n; rfl
  | cons row rest ih =>
    intro n
    simp only [List.enumFrom, List.filterMap_cons, List.find?_cons]
    cases hocc : occurrences row pattern with
    | nil =>
      have hc : pyContains row pattern = false :=
        (occurrences_nil_iff_not_contains row pattern).mp hocc
      simp only [hc, Bool.false_and, List.find?]
      exact ih (n + 1)
    | cons o os =>
      have hc : pyContains row pattern = true := by
        by_contra hcf
        rw [Bool.not_eq_true, ← occurrences_nil_iff_not_contains row pattern,
          hocc] at hcf
        exact absurd hcf (by simp)
      cases hp : decide (pos ≤ (n : Int)) with
      | true =>
        simp only [hc, hp, Bool.true_and, List.find?_cons, List.find?]
        rfl
      | false =>
        simp only [hc, hp, Bool.true_and, List.find?_cons, List.find?]
        exact ih (n + 1)

/-- `_move(y)` for a `y` that is the current cursor or a valid row sets the
cursor to `y`. -/
theorem move_pos_of_valid (st : ListView) (y : Int)
    (h : y = st.pos ∨ (0 ≤ y ∧ y < st.len)) : (st.move y).pos = y := by
  unfold ListView.move
  by_cases h1 : y = st.pos
  · rw [if_pos h1]; exact h1.symm
  · rw [if_neg h1]
    rcases h with h | h
    · exact absurd h h1
    · rw [if_pos h]

/-- **C8.** `highlighttext(pattern)` returns the number of rows of the
current source in which `pattern` occurs as an exact, case-sensitive
substring; when that count is nonzero the cursor moves to the first matching
row at or after the current cursor, and stays on its current row when no
matching row lies at or after it (no wrap-around); when the count is zero
the state is unchanged. -/
theorem highlight_spec (st : ListView) (pattern : String) :
    (st.highlighttext pattern).2 =
      (st.rows.filter fun row => pyContains row pattern).length
    ∧ (st.highlighttext pattern).1.pos =
      (if (st.rows.filter fun row => pyContains row pattern).length = 0
        then st.pos
        else
          match st.rows.enum.find? fun p =>
              pyContains p.2 pattern && decide (st.pos ≤ (p.1 : Int)) with
          | some p => ((p.1 : Int))
          | none => st.pos) := by
  have hlen := coord_length pattern st.rows 0
  have hfind := coord_find pattern st.pos st.rows 0
  rw [← List.enum] at hlen hfind
  unfold ListView.highlighttext
  by_cases hz : (st.rows.enum.filterMap fun p =>
      match occurrences p.2 pattern with
      | [] => none
      | occ => some ((p.1 : Int), occ)).length ≠ 0
  · rw [if_pos hz]
    refine ⟨hlen, ?_⟩
    rw [if_neg (by rw [← hlen]; exact hz)]
    cases hcf : (st.rows.enum.filterMap fun p =>
        match occurrences p.2 pattern with
        | [] => none
        | occ => some ((p.1 : Int), occ)).find?
          fun p => decide (st.pos ≤ p.1) with
    | none =>
      rw [hcf] at hfind
      cases hef : st.rows.enum.find? fun p =>
          pyContains p.2 pattern && decide (st.pos ≤ (p.1 : Int)) with
      | none =>
        simp only [hcf]
        exact move_pos_of_valid _ st.pos (Or.inl rfl)
      | some q => rw [hef] at hfind; exact absurd hfind (by simp)
    | some p =>
      rw [hcf] at hfind
      cases hef : st.rows.enum.find? fun p =>
          pyContains p.2 pattern && decide (st.pos ≤ (p.1 : Int)) with
      | none => rw [hef] at hfind; exact absurd hfind (by simp)
      | some q =>
        rw [hef] at hfind
        simp only [Option.map_some', Option.some.injEq] at hfind
        have hq : q ∈ st.rows.enum :=
          List.mem_of_find?_eq_some hef
        have hqlt : q.1 < st.rows.length := by
          have h1 := (List.mem_enum_iff_getElem?).mp hq
          exact (List.getElem?_eq_some.mp h1).1
        simp only [hcf]
        rw [hfind]
        exact move_pos_of_valid _ _ (Or.inr ⟨Int.natCast_nonneg _, by
          simp only [ListView.len]
          exact_mod_cast hqlt⟩)
  · rw [if_neg hz]
    push_neg at hz
    refine ⟨by rw [← hlen]; exact hz.symm, ?_⟩
    rw [if_pos (by rw [← hlen]; exact hz)]

/-! ## C9: `nextMatch` / `prevMatch` -/

theorem find_intRangeFrom_some (p : Int → Bool) :
    ∀ (n : Nat) (a y : Int), (intRangeFrom a n).find? p = some y →
      a ≤ y ∧ y < a + n ∧ p y = true
        ∧ ∀ z, a ≤ z → z < y → p z = false := by
  intro n
  induction n with
  | zero => intro a y h; exact absurd h (by simp [intRangeFrom])
  | succ n ih =>
    intro a y h
    simp only [intRangeFrom, List.find?_cons] at h
    cases hpa : p a with
    | true =>
      rw [hpa] at h
      have hy : y = a := by
        have := h
        simp only at this
        exact (Option.some.injEq _ _).mp this |>.symm
      subst hy
      refine ⟨le_refl _, by push_cast; omega, hpa, ?_⟩
      intro z h1 h2
      omega
    | false =>
      rw [hpa] at h
      simp only at h
      obtain ⟨h1, h2, h3, h4⟩ := ih (a + 1) y h
      refine ⟨by omega, by push_cast at h2 ⊢; omega, h3, ?_⟩
      intro z hz1 hz2
      rcases eq_or_lt_of_le hz1 with hz | hz
      · rw [← hz]; exact hpa
      · exact h4 z (by omega) hz2

theorem find_intRangeFrom_none (p : Int → Bool) :
    ∀ (n : Nat) (a : Int), (intRangeFrom a n).find? p = none →
      ∀ z, a ≤ z → z < a + n → p z = false := by
  intro n
  induction n with
  | zero => intro a _ z h1 h2; omega
  | succ n ih =>
    intro a h z h1 h2
    simp only [intRangeFrom, List.find?_cons] at h
    cases hpa : p a with
    | true => rw [hpa] at h; exact absurd h (by simp)
    | false =>
      rw [hpa] at h
      simp only at h
      rcases eq_or_lt_of_le h1 with hz | hz
      · rw [← hz]; exact hpa
      · exact ih (a + 1) h z (by omega) (by push_cast at h2 ⊢; omega)

theorem find_intRangeDown_some (p : Int → Bool) :
    ∀ (n : Nat) (a y : Int), (intRangeDown a n).find? p = some y →
      a - n < y ∧ y ≤ a ∧ p y = true
        ∧ ∀ z, y < z → z ≤ a → p z = false := by
  intro n
  induction n with
  | zero => intro a y h; exact absurd h (by simp [intRangeDown])
  | succ n ih =>
    intro a y h
    simp only [intRangeDown, List.find?_cons] at h
    cases hpa : p a with
    | true =>
      rw [hpa] at h
      have hy : y = a := by
        simp only at h
        exact (Option.some.injEq _ _).mp h |>.symm
      subst hy
      refine ⟨by push_cast; omega, le_refl _, hpa, ?_⟩
      intro z h1 h2
      omega
    | false =>
      rw [hpa] at h
      simp only at h
      obtain ⟨h1, h2, h3, h4⟩ := ih (a - 1) y h
      refine ⟨by push_cast at h1 ⊢; omega, by omega, h3, ?_⟩
      intro z hz1 hz2
      rcases eq_or_lt_of_le hz2 with hz | hz
      · rw [hz]; exact hpa
      · exact h4 z hz1 (by omega)

theorem find_intRangeDown_none (p : Int → Bool) :
    ∀ (n : Nat) (a : Int), (intRangeDown a n).find? p = none →
      ∀ z, a - n < z → z ≤ a → p z = false := by
  intro n
  induction n with
  | zero => intro a _ z h1 h2; omega
  | succ n ih =>
    intro a h z h1 h2
    simp only [intRangeDown, List.find?_cons] at h
    cases hpa : p a with
    | true => rw [hpa] at h; exact absurd h (by simp)
    | false =>
      rw [hpa] at h
      simp only at h
      rcases eq_or_lt_of_le h2 with hz | hz
      · rw [hz]; exact hpa
      · exact ih (a - 1) h z (by push_cast at h1 ⊢; omega) (by omega)

/-- **C9 (amended).** With a highlight active, a well-placed cursor and
`_end` equal to the source length: `nextMatch` moves the cursor to the
nearest recorded matching row strictly after it — in particular never
backwards and never past any matching row, so repeated presses never revisit
a row — and is a no-op when no matching row lies strictly after the cursor
(no wrap-around). `prevMatch` walks strictly backwards in the same way,
**but only down to row 1**: the loop `range(pos - 1, 0, -1)` never examines
row 0, so it is a no-op whenever the only earlier matching row is row 0
(contrary to the original claim, which promises the nearest matching row
strictly before the cursor unconditionally). -/
theorem match_nav_spec (st : ListView)
    (hh : st.highlight = true) (hpos : 0 ≤ st.pos)
    (hlt : st.pos < st.len) (hend : st.endd = st.len) :
    ((∀ y, st.pos < y → y < st.endd →
        (st.hlcoords.lookup y).isSome = false) →
      st.step .nextMatch = st)
    ∧ (∀ y0, st.pos < y0 → y0 < st.endd →
        (st.hlcoords.lookup y0).isSome = true →
      ∃ y, (st.step .nextMatch).pos = y ∧ st.pos < y ∧ y ≤ y0
        ∧ (st.hlcoords.lookup y).isSome = true
        ∧ ∀ z, st.pos < z → z < y → (st.hlcoords.lookup z).isSome = false)
    ∧ ((∀ y, 1 ≤ y → y ≤ st.pos - 1 →
        (st.hlcoords.lookup y).isSome = false) →
      st.step .prevMatch = st)
    ∧ (∀ y0, 1 ≤ y0 → y0 ≤ st.pos - 1 →
        (st.hlcoords.lookup y0).isSome = true →
      ∃ y, (st.step .prevMatch).pos = y ∧ y0 ≤ y ∧ y ≤ st.pos - 1 ∧ 1 ≤ y
        ∧ (st.hlcoords.lookup y).isSome = true
        ∧ ∀ z, y < z → z ≤ st.pos - 1 →
            (st.hlcoords.lookup z).isSome = false) := by
  refine ⟨?_, ?_, ?_, ?_⟩
  · intro hnone
    simp only [ListView.step, hh, if_true, pyRangeAsc]
    cases hf : (intRangeFrom (st.pos + 1) (st.endd - (st.pos + 1)).toNat).find?
        (fun y => (st.hlcoords.lookup y).isSome) with
    | none => rfl
    | some y =>
      obtain ⟨h1, h2, h3, _⟩ := find_intRangeFrom_some _ _ _ _ hf
      have := hnone y (by omega) (by omega)
      rw [h3] at this
      exact absurd this (by simp)
  · intro y0 hy1 hy2 hy3
    simp only [ListView.step, hh, if_true, pyRangeAsc]
    cases hf : (intRangeFrom (st.pos + 1) (st.endd - (st.pos + 1)).toNat).find?
        (fun y => (st.hlcoords.lookup y).isSome) with
    | none =>
      have := find_intRangeFrom_none _ _ _ hf y0 (by omega) (by omega)
      rw [hy3] at this
      exact absurd this (by simp)
    | some y =>
      obtain ⟨h1, h2, h3, h4⟩ := find_intRangeFrom_some _ _ _ _ hf
      have hyy0 : y ≤ y0 := by
        by_contra hlt'
        push_neg at hlt'
        have := h4 y0 (by omega) hlt'
        rw [hy3] at this
        exact absurd this (by simp)
      refine ⟨y, ?_, by omega, hyy0, h3, ?_⟩
      · exact move_pos_of_valid st y (Or.inr ⟨by omega, by omega⟩)
      · intro z hz1 hz2
        exact h4 z (by omega) hz2
  · intro hnone
    simp only [ListView.step, hh, if_true, pyRangeDesc]
    cases hf : (intRangeDown (st.pos - 1) ((st.pos - 1) - 0).toNat).find?
        (fun y => (st.hlcoords.lookup y).isSome) with
    | none => rfl
    | some y =>
      obtain ⟨h1, h2, h3, _⟩ := find_intRangeDown_some _ _ _ _ hf
      have := hnone y (by omega) (by omega)
      rw [h3] at this
      exact absurd this (by simp)
  · intro y0 hy1 hy2 hy3
    simp only [ListView.step, hh, if_true, pyRangeDesc]
    cases hf : (intRangeDown (st.pos - 1) ((st.pos - 1) - 0).toNat).find?
        (fun y => (st.hlcoords.lookup y).isSome) with
    | none =>
      have := find_intRangeDown_none _ _ _ hf y0 (by omega) (by omega)
      rw [hy3] at this
      exact absurd this (by simp)
    | some y =>
      obtain ⟨h1, h2, h3, h4⟩ := find_intRangeDown_some _ _ _ _ hf
      have hyy0 : y0 ≤ y := by
        by_contra hlt'
        push_neg at hlt'
        have := h4 y0 hlt' (by omega)
        rw [hy3] at this
        exact absurd this (by simp)
      refine ⟨y, ?_, hyy0, by omega, by omega, h3, ?_⟩
      · exact move_pos_of_valid st y (Or.inr ⟨by omega, by omega⟩)
      · intro z hz1 hz2
        exact h4 z hz1 (by omega)

/-- **C9 (counterexample to the original claim).** Highlighting `"m"` over
`["m", "a", "m"]` records matches on rows 0 and 2; after `nextMatch` the
cursor sits on row 2. The nearest matching row strictly before the cursor is
row 0 — but `prevMatch` leaves the cursor on row 2, because its loop
`range(pos - 1, 0, -1)` stops before row 0. -/
theorem prevMatch_skips_row_zero :
    st9.pos = 2
    ∧ (st9.hlcoords.lookup 0).isSome = true
    ∧ (st9.hlcoords.lookup 1).isSome = false
    ∧ (st9.step .prevMatch).pos = 2 := by decide

/-- Witness for C9 (amended) at `st9` (cursor on row 2, matches recorded on
rows 0 and 2): rows 1..pos-1 hold no match, so `prevMatch` is a no-op even
though row 0 matches. -/
theorem match_nav_spec_witness :
    (st9.highlight = true ∧ (0 : Int) ≤ st9.pos ∧ st9.pos < st9.len
      ∧ st9.endd = st9.len
      ∧ (∀ y : Int, 1 ≤ y → y ≤ st9.pos - 1 →
          (st9.hlcoords.lookup y).isSome = false)
      ∧ (st9.hlcoords.lookup 0).isSome = true)
    ∧ st9.step .prevMatch = st9 := by
  have hnone : ∀ y : Int, 1 ≤ y → y ≤ st9.pos - 1 →
      (st9.hlcoords.lookup y).isSome = false := by
    intro y h1 h2
    have hp : st9.pos = 2 := by decide
    rw [hp] at h2
    have hy : y = 1 := by omega
    subst hy
    decide
  refine ⟨⟨by decide, by decide, by decide, by decide, hnone, by decide⟩, ?_⟩
  exact (match_nav_spec st9 (by decide) (by decide) (by decide)
    (by decide)).2.2.1 hnone

end Bluebird
